import Mathlib

/-!
Verification development for the teacher-assistant grading core
(`src/services/grading_service.py`, `src/database/db_manager.py`,
`src/database/models.py`).

Shallow embedding conventions:
* Python `int` database ids / indices are `Int`.
* Nullable columns are `Option _`; Python `x or ""` is `pyOr`.
* Text columns that hold a JSON list (`Question.knowledge_topics`) are
  modelled as `Option (List String)`: `some l` when the stored text parses
  as a JSON array of strings, `none` when the stored text is missing,
  empty, or unparsable (exactly the cases where `_safe_json_loads`
  falls back to `[]`).
* `Grading` rows store the decoded list fields directly
  (the source stores `json.dumps` of the list and decodes with
  `_safe_json_loads` on read; the dump/load round trip is the identity
  on lists of strings).  The `id` / `created_at` columns of `gradings`
  are not observable by any claim and are omitted.
* The OpenAI client is modelled as an explicit oracle function
  `SolutionPayload → Except String GradingData`: `.ok` for a response
  whose JSON content parses to the enforced schema, `.error e` for an
  API exception or a JSON decode failure (both are caught by the same
  `except Exception` handler in `_call_grading_ai`).
* Python string slicing `s[:n]` is `strTake n s` (a hard character cut);
  `str.strip()` emptiness tests use `String.trim`.
-/

namespace TeacherAssistant

/-- Python `s[:n]`: hard cut to the first `n` characters. -/
def strTake (n : Nat) (s : String) : String :=
  String.mk (s.data.take n)

/-- Python `x or ""` on an optional string (`None` and `""` both give `""`). -/
def pyOr (s : Option String) : String :=
  s.getD ""

/-- Python `not (x or "").strip()`: the text is empty or whitespace-only
(`strip` removes leading and trailing whitespace, so the stripped text
is empty exactly when every character is whitespace). -/
def isBlank (s : Option String) : Bool :=
  (pyOr s).data.all Char.isWhitespace

/-- Model of `database.models.Question` (columns used by the grading core). -/
structure Question where
  id : Int
  exam_id : Int
  question_text : String
  difficulty : Option Int
  order_index : Int
  part_label : Option String
  knowledge_topics : Option (List String)
deriving Repr, DecidableEq

/-- Model of `database.models.SubmissionItem`. -/
structure SubmissionItem where
  id : Int
  submission_id : Int
  question_id : Option Int
  order_index : Int
  part_label : Option String
  position : Int
  answer_text : Option String
deriving Repr, DecidableEq

/-- Model of `database.models.Submission` (columns the orchestrator reads). -/
structure Submission where
  id : Int
  exam_id : Int
deriving Repr, DecidableEq

/-- The structured judgement enforced by `GRADING_SCHEMA`. -/
structure GradingData where
  knowledge_gaps : List String
  calculation_logic_errors : List String
  llm_feedback : String
  is_correct : Bool
deriving Repr, DecidableEq

/-- A row of the `gradings` table (see the module comment for the
JSON-list columns; `is_correct` is stored as `1/0` in SQLite and is a
`Bool` here). -/
structure GradingRow where
  submission_id : Int
  question_id : Int
  knowledge_gaps : List String
  calculation_logic_errors : List String
  llm_feedback : String
  is_correct : Bool
  final_score : Option Int
deriving Repr, DecidableEq

/-- The fields of a `question_solutions` row that
`get_solution_by_question` feeds into the grading payload. -/
structure Solution where
  solution_text : String
  final_answer : String
  reasoning_approach : String
deriving Repr, DecidableEq

/-- The payload dict built by `grade_with_solution_comparison` and sent
to the grading oracle by `_call_grading_ai`. -/
structure SolutionPayload where
  solution_text : String
  final_answer : String
  reasoning_approach : String
  student_answer : String
deriving Repr, DecidableEq

/-- One entry of the context list built by `_build_context`. -/
structure CtxEntry where
  part_label : String
  question_text : String
  student_answer : String
deriving Repr, DecidableEq

/-- The `current` part of the payload built by `_make_payload`. -/
structure PayloadCurrent where
  order_index : Int
  part_label : String
  question_text : String
  student_answer : String
deriving Repr, DecidableEq

/-- The payload built by `_make_payload`. -/
structure Payload where
  current : PayloadCurrent
  context_previous : List CtxEntry
deriving Repr, DecidableEq

/-- Model of `dataclass GradingResult` from `grading_service.py`. -/
structure GradingResult where
  submission_id : Int
  question_id : Int
  order_index : Int
  part_label : String
  knowledge_gaps : List String
  calculation_logic_errors : List String
  llm_feedback : String
  is_correct : Bool
deriving Repr, DecidableEq

/-- Model of `CTX_MAX_CHARS_QUESTION` constant. -/
def CTX_MAX_CHARS_QUESTION : Nat := 1200

/-- Model of `CTX_MAX_CHARS_ANSWER` constant. -/
def CTX_MAX_CHARS_ANSWER : Nat := 1200

/-- Model of `_safe_json_loads` on a JSON-list text column: missing / empty /
unparsable text gives `[]`, otherwise the decoded list. -/
def _safe_json_loads (s : Option (List String)) : List String :=
  s.getD []

/-- Model of `_get_reasoning_effort` from `grading_service.py`:
`None → "medium"`, `d < 5 → "low"`, `6 ≤ d ≤ 8 → "medium"`,
else `"high"`. -/
def _get_reasoning_effort (difficulty : Option Int) : String :=
  match difficulty with
  | none => "medium"
  | some d =>
    if d < 5 then "low"
    else if 6 ≤ d ∧ d ≤ 8 then "medium"
    else "high"

/-- Model of `_call_grading_ai`: a well-formed response is returned as parsed;
any exception from the API call or the JSON decode is caught and
replaced by the hard-coded fallback judgement (note its non-empty
knowledge-gap entry and the error text placed in `llm_feedback`). -/
def _call_grading_ai (resp : Except String GradingData) : GradingData :=
  match resp with
  | .ok d => d
  | .error e =>
    { knowledge_gaps := ["Không thể phân tích do lỗi hệ thống"]
      calculation_logic_errors := []
      llm_feedback := "Lỗi khi chấm bài: " ++ e
      is_correct := false }

/-- The `(order_index, part_label)` key under which `_match_pairs`
indexes the outline (`getattr(x, "part_label", None) or ""`). -/
def questionKey (q : Question) : Int × String :=
  (q.order_index, pyOr q.part_label)

/-- The fallback key of a fragment
(`(a.order_index, getattr(a, "part_label", None) or "")`). -/
def itemKey (a : SubmissionItem) : Int × String :=
  (a.order_index, pyOr a.part_label)

/-- The `q_lookup` dict of `_match_pairs`: keyed by
`(order_index, part_label or "")`; a Python dict keeps the last
assignment for a repeated key, hence the reversed search. -/
def lookupQuestion (questions : List Question) (key : Int × String) : Option Question :=
  questions.reverse.find? (fun q => questionKey q == key)

/-- The truthiness test `if getattr(a, "question_id", None):` — a null
or zero `question_id` counts as absent. -/
def hasExplicitRef (a : SubmissionItem) : Bool :=
  match a.question_id with
  | some qid => qid != 0
  | none => false

/-- Per-fragment resolution of `_match_pairs`: an explicit (truthy)
`question_id` is resolved by a linear search over the outline and is
authoritative (no fallback on a miss); otherwise the
`(order_index, part_label)` lookup is used. -/
def resolveItem (questions : List Question) (a : SubmissionItem) : Option Question :=
  if hasExplicitRef a then
    questions.find? (fun x => some x.id == a.question_id)
  else
    lookupQuestion questions (itemKey a)

/-- Model of `_match_pairs`.  The Python version groups the matched pairs into a
dict keyed by `q.order_index` with per-key appends; since the
orchestrator only reads that dict through `sorted(keys)` and the per-key
lists, we keep the matched pairs as one flat list in fragment order and
recover each bucket with `pairsFor` (the per-key append order is exactly
the fragment order restricted to that key). -/
def _match_pairs (questions : List Question) (items : List SubmissionItem) :
    List (Question × SubmissionItem) × List SubmissionItem :=
  match items with
  | [] => ([], [])
  | a :: rest =>
    let step := _match_pairs questions rest
    match resolveItem questions a with
    | none => (step.1, a :: step.2)
    | some q => ((q, a) :: step.1, step.2)

/-- The bucket `pairs_by_order[k]` recovered from the flat matched list. -/
def pairsFor (matched : List (Question × SubmissionItem)) (k : Int) :
    List (Question × SubmissionItem) :=
  matched.filter (fun p => p.1.order_index == k)

/-- Model of `sorted(q_map_qa.keys())`: the distinct group indices of the matched
pairs in ascending order. -/
def groupKeys (matched : List (Question × SubmissionItem)) : List Int :=
  List.insertionSort (· ≤ ·) (matched.map (fun p => p.1.order_index)).dedup

/-- The context entry `_build_context` emits for one stack element. -/
def ctxEntryOf (p : Question × SubmissionItem) : CtxEntry :=
  { part_label := pyOr p.1.part_label
    question_text := strTake CTX_MAX_CHARS_QUESTION p.1.question_text
    student_answer := strTake CTX_MAX_CHARS_ANSWER (pyOr p.2.answer_text) }

/-- Model of `_build_context`: keep the stack entries of the current group (in
stack order) and truncate their texts. -/
def _build_context (order_index : Int)
    (context_stack : List (Question × SubmissionItem)) : List CtxEntry :=
  (context_stack.filter (fun p => p.1.order_index == order_index)).map ctxEntryOf

/-- Model of `_make_payload`. -/
def _make_payload (q : Question) (a : SubmissionItem) (ctx : List CtxEntry) : Payload :=
  { current :=
      { order_index := q.order_index
        part_label := pyOr q.part_label
        question_text := strTake CTX_MAX_CHARS_QUESTION q.question_text
        student_answer := strTake CTX_MAX_CHARS_ANSWER (pyOr a.answer_text) }
    context_previous := ctx }

/-- The payload dict of `grade_with_solution_comparison`. -/
def mkSolutionPayload (sol : Solution) (student_answer : String) : SolutionPayload :=
  { solution_text := sol.solution_text
    final_answer := sol.final_answer
    reasoning_approach := sol.reasoning_approach
    student_answer := student_answer }

/-- One entry of the compact grading record list `build_final_report`
sends to the report oracle. -/
structure CompactEntry where
  order_index : Int
  part_label : String
  question_text : String
  knowledge_gaps : List String
  calculation_logic_errors : List String
  llm_feedback : String
  is_correct : Bool
deriving Repr, DecidableEq

/-- The collaborators of one grading pass: the submission row, the
outline and fragments the persistence layer returns for it, the stored
solutions (`get_solution_by_question`; `none` models the empty dict it
returns when no solution exists), and the two oracles. -/
structure Env where
  submission : Option Submission
  questions : List Question
  items : List SubmissionItem
  solutions : Int → Option Solution
  oracle : SolutionPayload → Except String GradingData
  reportOracle : List CompactEntry → Except String String

/-- Model of `grade_with_solution_comparison`: a missing solution raises
`ValueError` (the `.error` case, which nothing in `grade_submission`
catches); otherwise the oracle is called and its failures are absorbed
by `_call_grading_ai`, so the call returns `.ok`. -/
def grade_with_solution_comparison (env : Env) (question_id : Int)
    (student_answer : String) : Except String GradingData :=
  match env.solutions question_id with
  | none =>
    .error ("Không tìm thấy lời giải chuẩn cho question_id " ++ toString question_id)
  | some sol =>
    .ok (_call_grading_ai (env.oracle (mkSolutionPayload sol student_answer)))

/-- Model of `_save_grading_new`: overwrite the fields of the first row with this
`(submission_id, question_id)` key, or append a fresh row when none
exists (both branches reset `final_score` to null). -/
def _save_grading_new (db : List GradingRow) (submission_id question_id : Int)
    (knowledge_gaps calculation_logic_errors : List String)
    (llm_feedback : String) (is_correct : Bool) : List GradingRow :=
  match db with
  | [] =>
    [{ submission_id, question_id, knowledge_gaps, calculation_logic_errors,
       llm_feedback, is_correct, final_score := none }]
  | r :: rest =>
    if r.submission_id == submission_id && r.question_id == question_id then
      { submission_id, question_id, knowledge_gaps, calculation_logic_errors,
        llm_feedback, is_correct, final_score := none } :: rest
    else
      r :: _save_grading_new rest submission_id question_id knowledge_gaps
        calculation_logic_errors llm_feedback is_correct

/-- The `.first()` read of a grading row by `(submission_id, question_id)`. -/
def getGrading (db : List GradingRow) (submission_id question_id : Int) :
    Option GradingRow :=
  db.find? (fun r => r.submission_id == submission_id && r.question_id == question_id)

/-- The feedback text `_create_missing_grading` synthesizes. -/
def missingFeedback (knowledge_topics : List String) : String :=
  if knowledge_topics ≠ [] then
    "Học sinh không làm câu này. Cần ôn tập: " ++ String.intercalate ", " knowledge_topics
  else
    "Học sinh không làm câu này."

/-- Model of `_create_missing_grading`: the deterministic no-credit grading for an
unanswered question. -/
def _create_missing_grading (question : Question) (submission_id : Int)
    (db : List GradingRow) : List GradingRow :=
  let knowledge_topics := _safe_json_loads question.knowledge_topics
  _save_grading_new db submission_id question.id knowledge_topics []
    (missingFeedback knowledge_topics) false

/-- Instrumentation record for one oracle-graded pair: the pair itself,
its group, the context list and (unused) payload the loop builds for it,
and the solution-comparison payload actually sent to the oracle. -/
structure PairTrace where
  question : Question
  item : SubmissionItem
  groupKey : Int
  ctx : List CtxEntry
  payload : Payload
  oracleInput : SolutionPayload
deriving Repr, DecidableEq

/-- The pair an oracle-call trace entry was graded for. -/
def pairOf (t : PairTrace) : Question × SubmissionItem :=
  (t.question, t.item)

/-- Outcome of a (partial) run of the grading loop.  `err` is the
message of an uncaught `ValueError` (grading stops there, but every
`_save_grading_new` already committed stays in `db`); `results` and
`trace` list, in processing order, the results appended and the oracle
calls made before the stop. -/
structure StepOut where
  err : Option String
  db : List GradingRow
  results : List GradingResult
  trace : List PairTrace

/-- The inner loop of `grade_submission` over one group's pairs.
A blank fragment gets the synthesized no-credit grading and is neither
returned, traced, nor pushed on the context stack; otherwise the loop
builds the context and payload, grades through the solution-comparison
oracle (`grade_with_solution_comparison` inlined: a missing solution
raises), persists, and extends the stack after grading. -/
def gradePairs (env : Env) (submission_id : Int) (k : Int)
    (pairs : List (Question × SubmissionItem))
    (stack : List (Question × SubmissionItem))
    (db : List GradingRow) : StepOut :=
  match pairs with
  | [] => ⟨none, db, [], []⟩
  | (q, a) :: rest =>
    if isBlank a.answer_text then
      gradePairs env submission_id k rest stack (_create_missing_grading q submission_id db)
    else
      let ctx := _build_context k stack
      let payload := _make_payload q a ctx
      match env.solutions q.id with
      | none =>
        ⟨some ("Không tìm thấy lời giải chuẩn cho question_id " ++ toString q.id),
          db, [], []⟩
      | some sol =>
        let oracleInput := mkSolutionPayload sol (pyOr a.answer_text)
        let gd := _call_grading_ai (env.oracle oracleInput)
        let db1 := _save_grading_new db submission_id q.id gd.knowledge_gaps
          gd.calculation_logic_errors gd.llm_feedback gd.is_correct
        let res : GradingResult :=
          { submission_id, question_id := q.id, order_index := q.order_index
            part_label := pyOr q.part_label
            knowledge_gaps := gd.knowledge_gaps
            calculation_logic_errors := gd.calculation_logic_errors
            llm_feedback := gd.llm_feedback
            is_correct := gd.is_correct }
        let step := gradePairs env submission_id k rest (stack ++ [(q, a)]) db1
        ⟨step.err, step.db, res :: step.results,
          { question := q, item := a, groupKey := k, ctx, payload, oracleInput } :: step.trace⟩

/-- The outer loop of `grade_submission` over the sorted group indices;
each group starts with a fresh context stack.  An uncaught exception
stops the pass (later groups are never reached). -/
def gradeGroups (env : Env) (submission_id : Int) (keys : List Int)
    (matched : List (Question × SubmissionItem))
    (db : List GradingRow) : StepOut :=
  match keys with
  | [] => ⟨none, db, [], []⟩
  | k :: rest =>
    let step := gradePairs env submission_id k (pairsFor matched k) [] db
    match step.err with
    | some e => ⟨some e, step.db, step.results, step.trace⟩
    | none =>
      let next := gradeGroups env submission_id rest matched step.db
      ⟨next.err, next.db, step.results ++ next.results, step.trace ++ next.trace⟩

/-- What a caller of `grade_submission` can observe: the returned list
(or the uncaught exception), the gradings table, the mismatched
fragments, and the trace of oracle calls. -/
structure PassOut where
  outcome : Except String (List GradingResult)
  db : List GradingRow
  trace : List PairTrace
  mismatches : List SubmissionItem

/-- Model of `grade_submission`: no submission row gives the empty result; else
match, then grade group by group in ascending group order.  On an
uncaught exception the caller gets no result list, but the rows already
committed stay persisted. -/
def grade_submission (env : Env) (submission_id : Int)
    (db : List GradingRow) : PassOut :=
  match env.submission with
  | none => ⟨.ok [], db, [], []⟩
  | some _ =>
    let m := _match_pairs env.questions env.items
    let step := gradeGroups env submission_id (groupKeys m.1) m.1 db
    match step.err with
    | some e => ⟨.error e, step.db, step.trace, m.2⟩
    | none => ⟨.ok step.results, step.db, step.trace, m.2⟩

/-- A row of `submission_reports` (`db_manager.save_submission_report`);
`created_at` is a logical clock standing for `datetime.now`. -/
structure ReportRow where
  submission_id : Int
  report_content : String
  created_at : Nat
deriving Repr, DecidableEq

/-- The persisted state the report aggregator reads and writes. -/
structure ReportState where
  gradings : List GradingRow
  reports : List ReportRow
  clock : Nat

/-- Lexicographic `(Question.order_index, Question.id)` order used by
`build_final_report`'s query. -/
def reportLe (p1 p2 : GradingRow × Question) : Prop :=
  p1.2.order_index < p2.2.order_index ∨
    (p1.2.order_index = p2.2.order_index ∧ p1.2.id ≤ p2.2.id)

instance : DecidableRel reportLe := fun p1 p2 => by
  unfold reportLe; infer_instance

/-- The join `Grading ⋈ Question` for one submission ordered by
`(order_index, id)` (an inner join: a grading whose question row is
missing is dropped). -/
def reportJoin (questions : List Question) (gradings : List GradingRow)
    (submission_id : Int) : List (GradingRow × Question) :=
  List.insertionSort reportLe
    ((gradings.filter (fun g => g.submission_id == submission_id)).filterMap
      (fun g => (questions.find? (fun q => q.id == g.question_id)).map (fun q => (g, q))))

/-- One compact record of `build_final_report` (the `or []` / `or ""`
defaults are identities on the decoded fields our rows store). -/
def compactOf (p : GradingRow × Question) : CompactEntry :=
  { order_index := p.2.order_index
    part_label := pyOr p.2.part_label
    question_text := strTake CTX_MAX_CHARS_QUESTION p.2.question_text
    knowledge_gaps := p.1.knowledge_gaps
    calculation_logic_errors := p.1.calculation_logic_errors
    llm_feedback := p.1.llm_feedback
    is_correct := p.1.is_correct }

/-- Model of `build_final_report`: send the compact list to the report oracle;
on success persist the text as a new immutable report row and return it;
on an oracle exception return the fixed apology text without saving. -/
def build_final_report (env : Env) (submission_id : Int)
    (st : ReportState) : String × ReportState :=
  let compact := (reportJoin env.questions st.gradings submission_id).map compactOf
  match env.reportOracle compact with
  | .ok content =>
    (content,
      { st with
        reports := st.reports ++ [{ submission_id, report_content := content,
                                    created_at := st.clock }]
        clock := st.clock + 1 })
  | .error _ => ("Không thể tạo báo cáo do lỗi hệ thống.", st)

/-- Model of `db_manager.get_latest_report`: the submission's report with the
greatest creation time (`order_by(created_at.desc()).first()`; on equal
timestamps the earliest-stored row is kept). -/
def get_latest_report (st : ReportState) (submission_id : Int) : Option ReportRow :=
  (st.reports.filter (fun r => r.submission_id == submission_id)).foldl
    (fun acc r =>
      match acc with
      | none => some r
      | some b => if b.created_at < r.created_at then some r else some b)
    none

/-- Model of `get_or_generate_report`; the third component records whether the
report oracle was invoked. -/
def get_or_generate_report (env : Env) (submission_id : Int)
    (st : ReportState) : String × ReportState × Bool :=
  match get_latest_report st submission_id with
  | some r => (r.report_content, st, false)
  | none =>
    let built := build_final_report env submission_id st
    (built.1, built.2, true)

/-! ## General lemmas -/

theorem strTake_length (n : Nat) (s : String) : (strTake n s).length ≤ n := by
  have h : (strTake n s).length = (s.data.take n).length := rfl
  rw [h, List.length_take]
  exact Nat.min_le_left _ _

/-- Model of `_match_pairs` routes every fragment through `resolveItem`: the
matched list keeps, in fragment order, the fragments that resolve, and
the mismatch list keeps the rest. -/
theorem match_pairs_eq (qs : List Question) (items : List SubmissionItem) :
    _match_pairs qs items =
      (items.filterMap (fun a => (resolveItem qs a).map (fun q => (q, a))),
       items.filter (fun a => (resolveItem qs a).isNone)) := by
  induction items with
  | nil => rfl
  | cons a rest ih =>
    simp only [_match_pairs, ih, List.filterMap_cons, List.filter_cons]
    cases h : resolveItem qs a <;> simp [h]

/-! ## C2 — fragment resolution order -/

/-- An outline question whose fallback key is `(1, "")`. -/
def qC2 : Question := ⟨1, 1, "Q1", some 3, 1, some "", some []⟩

/-- A fragment with a dangling explicit reference (`question_id = 99`
matches nothing) whose fallback key `(1, "")` would resolve to `qC2`. -/
def aC2 : SubmissionItem := ⟨1, 1, some 99, 1, some "", 1, some "x"⟩

/-- Claim C2 (counterexample): a fragment whose explicit question
reference is present but unresolved is placed in the unmatched list even
though its `(group index, part label)` key resolves to a question — the
matcher never falls back for an unresolved reference, contradicting the
claimed "absent **or unresolved**" fallback rule. -/
theorem c2_counterexample :
    _match_pairs [qC2] [aC2] = ([], [aC2]) ∧
    lookupQuestion [qC2] (itemKey aC2) = some qC2 ∧
    hasExplicitRef aC2 = true := by
  exact ⟨rfl, rfl, rfl⟩

/-- Claim C2 (amended): for every fragment, a present (truthy) explicit
question reference is authoritative — it is resolved by a linear scan of
the outline and a miss sends the fragment straight to the unmatched
list; only a fragment whose reference is absent is resolved via the
`(group index, part label)` lookup (a missing or empty part label being
the valid key `""`); a fragment resolving to no question by its single
applicable route is excluded from the matched pairs and reported
unmatched. -/
theorem c2_theorem (qs : List Question) (items : List SubmissionItem)
    (a : SubmissionItem) (ha : a ∈ items) :
    (hasExplicitRef a = true →
      resolveItem qs a = qs.find? (fun x => some x.id == a.question_id)) ∧
    (hasExplicitRef a = false →
      resolveItem qs a = lookupQuestion qs (itemKey a)) ∧
    (resolveItem qs a = none → a ∈ (_match_pairs qs items).2) ∧
    (∀ q, resolveItem qs a = some q → (q, a) ∈ (_match_pairs qs items).1) := by
  refine ⟨fun h => by simp [resolveItem, h], fun h => by simp [resolveItem, h], ?_, ?_⟩
  · intro h
    rw [match_pairs_eq]
    simp only [List.mem_filter]
    exact ⟨ha, by simp [h]⟩
  · intro q hq
    rw [match_pairs_eq]
    simp only [List.mem_filterMap]
    exact ⟨a, ha, by simp [hq]⟩

/-- A fragment with no explicit reference, resolved via the `(1, "")`
fallback key. -/
def aC2f : SubmissionItem := ⟨2, 1, none, 1, some "", 1, some "y"⟩

/-- Witness for `c2_theorem` at a concrete outline and fragment list. -/
theorem c2_witness : (qC2, aC2f) ∈ (_match_pairs [qC2] [aC2f]).1 := by
  exact (c2_theorem [qC2] [aC2f] aC2f (by simp)).2.2.2 qC2 rfl

/-! ## C3 — grading-call fallback value -/

/-- Claim C3 (counterexample): the terminal fallback judgement of
`_call_grading_ai` is *not* the all-empty default — its knowledge-gap
list carries one explanatory entry and its judgement text carries the
error message. -/
theorem c3_counterexample :
    ¬((_call_grading_ai (Except.error "boom")).knowledge_gaps = [] ∧
      (_call_grading_ai (Except.error "boom")).llm_feedback = "") := by
  decide

/-- Claim C3 (amended): a malformed oracle response or a failed oracle
call still yields a schema-valid structured value, and the terminal
fallback is the hard-coded judgement with one explanatory knowledge-gap
entry, an empty error list, the exception text in the judgement field,
and correctness false; when a solution exists the grading call never
raises (oracle failures are absorbed into the fallback, never
propagated). -/
theorem c3_theorem :
    (∀ e, _call_grading_ai (Except.error e) =
      { knowledge_gaps := ["Không thể phân tích do lỗi hệ thống"]
        calculation_logic_errors := []
        llm_feedback := "Lỗi khi chấm bài: " ++ e
        is_correct := false }) ∧
    (∀ d, _call_grading_ai (Except.ok d) = d) ∧
    (∀ (env : Env) (qid : Int) (ans : String) (sol : Solution),
      env.solutions qid = some sol →
      grade_with_solution_comparison env qid ans =
        .ok (_call_grading_ai (env.oracle (mkSolutionPayload sol ans)))) := by
  refine ⟨fun e => rfl, fun d => rfl, fun env qid ans sol h => ?_⟩
  simp [grade_with_solution_comparison, h]

/-- A one-question environment whose grading oracle is down. -/
def envC3 : Env :=
  { submission := some ⟨1, 1⟩
    questions := [qC2]
    items := [aC2f]
    solutions := fun _ => some ⟨"s", "f", "r"⟩
    oracle := fun _ => .error "down"
    reportOracle := fun _ => .ok "" }

/-- Witness for `c3_theorem` at a concrete environment. -/
theorem c3_witness :
    grade_with_solution_comparison envC3 1 "x" =
      .ok (_call_grading_ai (envC3.oracle (mkSolutionPayload ⟨"s", "f", "r"⟩ "x"))) := by
  exact (c3_theorem).2.2 envC3 1 "x" ⟨"s", "f", "r"⟩ rfl

/-! ## C9 — reasoning-effort tiers -/

/-- Claim C9 (code bug): the effort tiers are not monotone — difficulty
5 falls through both the `d < 5` and the `6 ≤ d ≤ 8` branches and gets
`"high"`, while the harder difficulty 6 gets `"medium"`; the realized
bands are low = 1–4, high = {5}, medium = 6–8, high = 9–10, which is
neither three contiguous tiers nor monotone non-decreasing. -/
theorem c9_theorem :
    _get_reasoning_effort (some 4) = "low" ∧
    _get_reasoning_effort (some 5) = "high" ∧
    _get_reasoning_effort (some 6) = "medium" ∧
    _get_reasoning_effort (some 8) = "medium" ∧
    _get_reasoning_effort (some 9) = "high" := by
  decide

/-! ## C7 — context truncation bound -/

/-- Claim C7: every context entry built for the oracle payload has its
question text and its student-answer text each capped at the same fixed
bound of 1200 characters, and each is exactly the hard character cut of
the corresponding source text of some stack element. -/
theorem c7_theorem (k : Int) (stack : List (Question × SubmissionItem))
    (e : CtxEntry) (he : e ∈ _build_context k stack) :
    e.question_text.length ≤ CTX_MAX_CHARS_QUESTION ∧
    e.student_answer.length ≤ CTX_MAX_CHARS_ANSWER ∧
    CTX_MAX_CHARS_QUESTION = 1200 ∧ CTX_MAX_CHARS_ANSWER = 1200 ∧
    ∃ p, p ∈ stack ∧
      e.question_text = strTake CTX_MAX_CHARS_QUESTION p.1.question_text ∧
      e.student_answer = strTake CTX_MAX_CHARS_ANSWER (pyOr p.2.answer_text) := by
  simp only [_build_context, List.mem_map, List.mem_filter] at he
  obtain ⟨p, ⟨hp, -⟩, rfl⟩ := he
  exact ⟨strTake_length _ _, strTake_length _ _, rfl, rfl, p, hp, rfl, rfl⟩

/-- A question whose text is far longer than the bound (1500 chars). -/
def qC7 : Question :=
  ⟨7, 1, String.mk (List.replicate 1500 'q'), some 5, 3, some "a", none⟩

/-- A fragment whose answer text is far longer than the bound. -/
def aC7 : SubmissionItem :=
  ⟨7, 1, none, 3, some "a", 1, some (String.mk (List.replicate 1500 's'))⟩

/-- Witness for `c7_theorem` on a stack whose source texts exceed the
bound. -/
theorem c7_witness :
    (ctxEntryOf (qC7, aC7)).question_text.length ≤ CTX_MAX_CHARS_QUESTION ∧
    (ctxEntryOf (qC7, aC7)).student_answer.length ≤ CTX_MAX_CHARS_ANSWER := by
  have h := c7_theorem 3 [(qC7, aC7)] (ctxEntryOf (qC7, aC7)) (by
    simp [_build_context, qC7])
  exact ⟨h.1, h.2.1⟩

/-! ## C5 — upsert idempotence -/

/-- The key `(submission_id, question_id)` of a grading row. -/
def keyOf (r : GradingRow) : Int × Int :=
  (r.submission_id, r.question_id)

/-- At most one grading row per `(submission, question)` pair. -/
def AtMostOnePerPair (db : List GradingRow) : Prop :=
  (db.map keyOf).Nodup

/-- The number of grading rows stored for one pair. -/
def countKey (db : List GradingRow) (submission_id question_id : Int) : Nat :=
  (db.filter (fun r =>
    r.submission_id == submission_id && r.question_id == question_id)).length

theorem mem_keys_save {x : Int × Int} (db : List GradingRow)
    (s q : Int) (g e : List String) (f : String) (c : Bool)
    (hx : x ∈ (_save_grading_new db s q g e f c).map keyOf) :
    x ∈ db.map keyOf ∨ x = (s, q) := by
  induction db with
  | nil =>
    simp [_save_grading_new, keyOf] at hx
    exact Or.inr hx
  | cons r rest ih =>
    by_cases hr : r.submission_id == s && r.question_id == q
    · simp only [_save_grading_new, if_pos hr, List.map_cons, List.mem_cons] at hx
      rcases hx with hx | hx
      · exact Or.inr hx
      · exact Or.inl (by simp [List.mem_cons]; exact Or.inr (by simpa using hx))
    · simp only [_save_grading_new, if_neg hr, List.map_cons, List.mem_cons] at hx
      rcases hx with hx | hx
      · exact Or.inl (by simp [hx])
      · rcases ih hx with h | h
        · exact Or.inl (by simp [List.mem_cons]; exact Or.inr (by simpa using h))
        · exact Or.inr h

theorem save_step_pos (rest : List GradingRow) (r : GradingRow)
    (s q : Int) (g e : List String) (f : String) (c : Bool)
    (hr : (r.submission_id == s && r.question_id == q) = true) :
    _save_grading_new (r :: rest) s q g e f c =
      (⟨s, q, g, e, f, c, none⟩ : GradingRow) :: rest := by
  simp [_save_grading_new, hr]

theorem save_step_neg (rest : List GradingRow) (r : GradingRow)
    (s q : Int) (g e : List String) (f : String) (c : Bool)
    (hr : (r.submission_id == s && r.question_id == q) = false) :
    _save_grading_new (r :: rest) s q g e f c =
      r :: _save_grading_new rest s q g e f c := by
  simp [_save_grading_new, hr]

theorem save_preserves_nodup (db : List GradingRow)
    (s q : Int) (g e : List String) (f : String) (c : Bool)
    (h : AtMostOnePerPair db) :
    AtMostOnePerPair (_save_grading_new db s q g e f c) := by
  induction db with
  | nil => simp [AtMostOnePerPair, _save_grading_new, keyOf]
  | cons r rest ih =>
    simp only [AtMostOnePerPair, List.map_cons, List.nodup_cons] at h
    obtain ⟨hnot, hrest⟩ := h
    cases hr : (r.submission_id == s && r.question_id == q) with
    | true =>
      have hkey : keyOf r = (s, q) := by
        simp only [Bool.and_eq_true, beq_iff_eq] at hr
        simp [keyOf, hr.1, hr.2]
      rw [save_step_pos rest r s q g e f c hr]
      simp only [AtMostOnePerPair, List.map_cons, List.nodup_cons]
      refine ⟨?_, hrest⟩
      rw [show keyOf (⟨s, q, g, e, f, c, none⟩ : GradingRow) = (s, q) from rfl, ← hkey]
      exact hnot
    | false =>
      rw [save_step_neg rest r s q g e f c hr]
      simp only [AtMostOnePerPair, List.map_cons, List.nodup_cons]
      refine ⟨?_, ih hrest⟩
      intro hmem
      rcases mem_keys_save rest s q g e f c hmem with h1 | h1
      · exact hnot h1
      · have hb : (r.submission_id == s && r.question_id == q) = true := by
          simp only [Bool.and_eq_true, beq_iff_eq]
          exact ⟨congrArg Prod.fst h1, congrArg Prod.snd h1⟩
        rw [hr] at hb
        exact Bool.false_ne_true hb

theorem count_eq_zero_of_not_mem (db : List GradingRow) (s q : Int)
    (h : (s, q) ∉ db.map keyOf) : countKey db s q = 0 := by
  induction db with
  | nil => rfl
  | cons r rest ih =>
    simp only [List.map_cons, List.mem_cons] at h
    push_neg at h
    have hr : (r.submission_id == s && r.question_id == q) = false := by
      by_contra hc
      apply h.1
      simp only [Bool.not_eq_false, Bool.and_eq_true, beq_iff_eq] at hc
      simp [keyOf, hc.1, hc.2]
    simp only [countKey, List.filter_cons, hr, if_false, Bool.false_eq_true]
    exact ih h.2

theorem count_save_self (db : List GradingRow)
    (s q : Int) (g e : List String) (f : String) (c : Bool)
    (h : AtMostOnePerPair db) :
    countKey (_save_grading_new db s q g e f c) s q = 1 := by
  induction db with
  | nil => simp [countKey, _save_grading_new]
  | cons r rest ih =>
    simp only [AtMostOnePerPair, List.map_cons, List.nodup_cons] at h
    obtain ⟨hnot, hrest⟩ := h
    cases hr : (r.submission_id == s && r.question_id == q) with
    | true =>
      have hkey : keyOf r = (s, q) := by
        simp only [Bool.and_eq_true, beq_iff_eq] at hr
        simp [keyOf, hr.1, hr.2]
      have hzero : countKey rest s q = 0 :=
        count_eq_zero_of_not_mem rest s q (hkey ▸ hnot)
      have hnil : rest.filter (fun r =>
          r.submission_id == s && r.question_id == q) = [] :=
        List.length_eq_zero.mp hzero
      rw [save_step_pos rest r s q g e f c hr]
      simp [countKey, List.filter_cons, hnil]
    | false =>
      rw [save_step_neg rest r s q g e f c hr]
      simpa [countKey, List.filter_cons, hr] using ih hrest

theorem getGrading_save_self (db : List GradingRow)
    (s q : Int) (g e : List String) (f : String) (c : Bool) :
    getGrading (_save_grading_new db s q g e f c) s q =
      some ⟨s, q, g, e, f, c, none⟩ := by
  induction db with
  | nil => simp [getGrading, _save_grading_new]
  | cons r rest ih =>
    cases hr : (r.submission_id == s && r.question_id == q) with
    | true =>
      rw [save_step_pos rest r s q g e f c hr]
      simp [getGrading]
    | false =>
      rw [save_step_neg rest r s q g e f c hr]
      simpa [getGrading, List.find?_cons, hr] using ih

theorem getGrading_save_other (db : List GradingRow)
    (s q s2 q2 : Int) (g e : List String) (f : String) (c : Bool)
    (hne : ¬(s2 = s ∧ q2 = q)) :
    getGrading (_save_grading_new db s q g e f c) s2 q2 = getGrading db s2 q2 := by
  have hnew : ((⟨s, q, g, e, f, c, none⟩ : GradingRow).submission_id == s2 &&
      (⟨s, q, g, e, f, c, none⟩ : GradingRow).question_id == q2) = false := by
    by_contra hc
    simp only [Bool.not_eq_false, Bool.and_eq_true, beq_iff_eq] at hc
    exact hne ⟨hc.1.symm, hc.2.symm⟩
  induction db with
  | nil => simp [getGrading, _save_grading_new, hnew]
  | cons r rest ih =>
    cases hr : (r.submission_id == s && r.question_id == q) with
    | true =>
      have hrk : (r.submission_id == s2 && r.question_id == q2) = false := by
        simp only [Bool.and_eq_true, beq_iff_eq] at hr
        by_contra hc
        simp only [Bool.not_eq_false, Bool.and_eq_true, beq_iff_eq] at hc
        exact hne ⟨hc.1.symm.trans hr.1, hc.2.symm.trans hr.2⟩
      rw [save_step_pos rest r s q g e f c hr]
      simp [getGrading, List.find?_cons, hnew, hrk]
    | false =>
      rw [save_step_neg rest r s q g e f c hr]
      cases hrk : (r.submission_id == s2 && r.question_id == q2) with
      | true => simp [getGrading, List.find?_cons, hrk]
      | false => simpa [getGrading, List.find?_cons, hrk] using ih

theorem getGrading_save_isSome (db : List GradingRow)
    (s q s2 q2 : Int) (g e : List String) (f : String) (c : Bool)
    (h : (getGrading db s2 q2).isSome = true) :
    (getGrading (_save_grading_new db s q g e f c) s2 q2).isSome = true := by
  by_cases heq : s2 = s ∧ q2 = q
  · obtain ⟨rfl, rfl⟩ := heq
    rw [getGrading_save_self]
    rfl
  · rw [getGrading_save_other db s q s2 q2 g e f c heq]
    exact h

/-! ## Orchestrator step lemmas -/

/-- The (possibly fallback) judgement the oracle branch produces. -/
def gdOf (env : Env) (sol : Solution) (a : SubmissionItem) : GradingData :=
  _call_grading_ai (env.oracle (mkSolutionPayload sol (pyOr a.answer_text)))

/-- The `GradingResult` appended for one oracle-graded pair. -/
def resultOf (sid : Int) (q : Question) (gd : GradingData) : GradingResult :=
  ⟨sid, q.id, q.order_index, pyOr q.part_label, gd.knowledge_gaps,
    gd.calculation_logic_errors, gd.llm_feedback, gd.is_correct⟩

/-- The `_save_grading_new` call of the oracle branch. -/
def dbAfterSave (db : List GradingRow) (sid : Int) (q : Question)
    (gd : GradingData) : List GradingRow :=
  _save_grading_new db sid q.id gd.knowledge_gaps gd.calculation_logic_errors
    gd.llm_feedback gd.is_correct

/-- The trace entry recorded for one oracle-graded pair. -/
def traceEntryOf (k : Int) (stack : List (Question × SubmissionItem))
    (sol : Solution) (q : Question) (a : SubmissionItem) : PairTrace :=
  ⟨q, a, k, _build_context k stack, _make_payload q a (_build_context k stack),
    mkSolutionPayload sol (pyOr a.answer_text)⟩

theorem gradePairs_step_blank (env : Env) (sid k : Int)
    (q : Question) (a : SubmissionItem)
    (rest : List (Question × SubmissionItem)) (stack : List (Question × SubmissionItem))
    (db : List GradingRow) (hb : isBlank a.answer_text = true) :
    gradePairs env sid k ((q, a) :: rest) stack db =
      gradePairs env sid k rest stack (_create_missing_grading q sid db) := by
  simp [gradePairs, hb]

theorem gradePairs_step_nosol (env : Env) (sid k : Int)
    (q : Question) (a : SubmissionItem)
    (rest : List (Question × SubmissionItem)) (stack : List (Question × SubmissionItem))
    (db : List GradingRow) (hb : isBlank a.answer_text = false)
    (hs : env.solutions q.id = none) :
    gradePairs env sid k ((q, a) :: rest) stack db =
      ⟨some ("Không tìm thấy lời giải chuẩn cho question_id " ++ toString q.id),
        db, [], []⟩ := by
  simp [gradePairs, hb, hs]

theorem gradePairs_step_sol (env : Env) (sid k : Int)
    (q : Question) (a : SubmissionItem) (sol : Solution)
    (rest : List (Question × SubmissionItem)) (stack : List (Question × SubmissionItem))
    (db : List GradingRow) (hb : isBlank a.answer_text = false)
    (hs : env.solutions q.id = some sol) :
    gradePairs env sid k ((q, a) :: rest) stack db =
      { err := (gradePairs env sid k rest (stack ++ [(q, a)])
          (dbAfterSave db sid q (gdOf env sol a))).err
        db := (gradePairs env sid k rest (stack ++ [(q, a)])
          (dbAfterSave db sid q (gdOf env sol a))).db
        results := resultOf sid q (gdOf env sol a) ::
          (gradePairs env sid k rest (stack ++ [(q, a)])
            (dbAfterSave db sid q (gdOf env sol a))).results
        trace := traceEntryOf k stack sol q a ::
          (gradePairs env sid k rest (stack ++ [(q, a)])
            (dbAfterSave db sid q (gdOf env sol a))).trace } := by
  simp [gradePairs, hb, hs, gdOf, resultOf, dbAfterSave, traceEntryOf]

theorem create_preserves_nodup (q : Question) (sid : Int) (db : List GradingRow)
    (h : AtMostOnePerPair db) :
    AtMostOnePerPair (_create_missing_grading q sid db) :=
  save_preserves_nodup db sid q.id _ _ _ _ h

theorem gradePairs_db_nodup (env : Env) (sid k : Int)
    (pairs : List (Question × SubmissionItem)) :
    ∀ (stack : List (Question × SubmissionItem)) (db : List GradingRow),
    AtMostOnePerPair db → AtMostOnePerPair (gradePairs env sid k pairs stack db).db := by
  induction pairs with
  | nil => intro stack db h; exact h
  | cons p rest ih =>
    intro stack db h
    obtain ⟨q, a⟩ := p
    cases hb : isBlank a.answer_text with
    | true =>
      rw [gradePairs_step_blank env sid k q a rest stack db hb]
      exact ih stack _ (create_preserves_nodup q sid db h)
    | false =>
      cases hs : env.solutions q.id with
      | none =>
        rw [gradePairs_step_nosol env sid k q a rest stack db hb hs]
        exact h
      | some sol =>
        rw [gradePairs_step_sol env sid k q a sol rest stack db hb hs]
        exact ih _ _ (save_preserves_nodup db sid q.id _ _ _ _ h)

theorem gradeGroups_db_nodup (env : Env) (sid : Int) (keys : List Int)
    (m : List (Question × SubmissionItem)) (db : List GradingRow)
    (h : AtMostOnePerPair db) :
    AtMostOnePerPair (gradeGroups env sid keys m db).db := by
  induction keys generalizing db with
  | nil => exact h
  | cons k rest ih =>
    have hstep := gradePairs_db_nodup env sid k (pairsFor m k) [] db h
    cases herr : (gradePairs env sid k (pairsFor m k) [] db).err with
    | some e => simpa [gradeGroups, herr] using hstep
    | none => simpa [gradeGroups, herr] using ih _ hstep

theorem grade_submission_db_nodup (env : Env) (sid : Int) (db : List GradingRow)
    (h : AtMostOnePerPair db) :
    AtMostOnePerPair (grade_submission env sid db).db := by
  cases hsub : env.submission with
  | none => simpa [grade_submission, hsub] using h
  | some s =>
    have hg := gradeGroups_db_nodup env sid
      (groupKeys (_match_pairs env.questions env.items).1)
      (_match_pairs env.questions env.items).1 db h
    cases herr : (gradeGroups env sid
        (groupKeys (_match_pairs env.questions env.items).1)
        (_match_pairs env.questions env.items).1 db).err with
    | some e => simpa [grade_submission, hsub, herr] using hg
    | none => simpa [grade_submission, hsub, herr] using hg

/-- Claim C5: persisting a grading for a pair that already has a row
overwrites it in place — after the save exactly one row holds the pair's
key — and a whole grading pass (hence any sequence of passes) preserves
"at most one Grading row per (submission, question)". -/
theorem c5_theorem (env : Env) (sid : Int) (db : List GradingRow)
    (h : AtMostOnePerPair db) :
    AtMostOnePerPair (grade_submission env sid db).db ∧
    ∀ (s q : Int) (g e : List String) (f : String) (c : Bool),
      countKey (_save_grading_new db s q g e f c) s q = 1 := by
  exact ⟨grade_submission_db_nodup env sid db h,
    fun s q g e f c => count_save_self db s q g e f c h⟩

/-! Shared concrete fixture: one exam with group 1 (parts "a", "b") and
group 2 (no sub-part); the part-"b" fragment and the group-2 fragment,
which is whitespace-only; solutions exist for every question. -/

/-- Fixture question: group 1, part "a". -/
def qF1 : Question := ⟨1, 1, "Qa", some 3, 1, some "a", some ["t1", "t2"]⟩

/-- Fixture question: group 1, part "b". -/
def qF2 : Question := ⟨2, 1, "Qb", some 7, 1, some "b", some []⟩

/-- Fixture question: group 2, no sub-part. -/
def qF3 : Question := ⟨3, 1, "Qc", some 9, 2, some "", none⟩

/-- Fixture fragment answering `qF1`. -/
def iF1 : SubmissionItem := ⟨1, 1, none, 1, some "a", 1, some "ans-a"⟩

/-- Fixture fragment answering `qF2`. -/
def iF2 : SubmissionItem := ⟨2, 1, none, 1, some "b", 2, some "ans-b"⟩

/-- Fixture fragment for `qF3`, whitespace-only. -/
def iF3 : SubmissionItem := ⟨3, 1, none, 2, some "", 3, some "  "⟩

/-- Fixture environment: all solutions stored, oracle healthy. -/
def envFix : Env :=
  { submission := some ⟨1, 1⟩
    questions := [qF1, qF2, qF3]
    items := [iF1, iF2, iF3]
    solutions := fun _ => some ⟨"sol", "fa", "ra"⟩
    oracle := fun p => .ok ⟨["g-" ++ p.student_answer], [], "fb", true⟩
    reportOracle := fun c => .ok ("report-" ++ toString c.length) }

/-- Witness for `c5_theorem` on the concrete fixture and an empty table. -/
theorem c5_witness :
    AtMostOnePerPair (grade_submission envFix 1 []).db ∧
    countKey (_save_grading_new [] 1 1 [] [] "" false) 1 1 = 1 := by
  have h := c5_theorem envFix 1 [] (by simp [AtMostOnePerPair])
  exact ⟨h.1, h.2 1 1 [] [] "" false⟩

/-! ## Trace membership lemmas -/

theorem gradePairs_trace_mem (env : Env) (sid k : Int)
    (pairs : List (Question × SubmissionItem)) :
    ∀ (stack : List (Question × SubmissionItem)) (db : List GradingRow)
      (t : PairTrace), t ∈ (gradePairs env sid k pairs stack db).trace →
      t.groupKey = k ∧ isBlank t.item.answer_text = false := by
  induction pairs with
  | nil =>
    intro stack db t ht
    simp [gradePairs] at ht
  | cons p rest ih =>
    intro stack db t ht
    obtain ⟨q, a⟩ := p
    cases hb : isBlank a.answer_text with
    | true =>
      rw [gradePairs_step_blank env sid k q a rest stack db hb] at ht
      exact ih stack _ t ht
    | false =>
      cases hs : env.solutions q.id with
      | none =>
        rw [gradePairs_step_nosol env sid k q a rest stack db hb hs] at ht
        simp at ht
      | some sol =>
        rw [gradePairs_step_sol env sid k q a sol rest stack db hb hs] at ht
        simp only [List.mem_cons] at ht
        rcases ht with rfl | ht
        · exact ⟨rfl, hb⟩
        · exact ih _ _ t ht

theorem gradeGroups_trace_mem (env : Env) (sid : Int) (keys : List Int)
    (m : List (Question × SubmissionItem)) :
    ∀ (db : List GradingRow) (t : PairTrace),
      t ∈ (gradeGroups env sid keys m db).trace →
      t.groupKey ∈ keys ∧ isBlank t.item.answer_text = false := by
  induction keys with
  | nil =>
    intro db t ht
    simp [gradeGroups] at ht
  | cons k rest ih =>
    intro db t ht
    cases herr : (gradePairs env sid k (pairsFor m k) [] db).err with
    | some e =>
      simp only [gradeGroups, herr] at ht
      have := gradePairs_trace_mem env sid k (pairsFor m k) [] db t ht
      exact ⟨by simp [this.1], this.2⟩
    | none =>
      simp only [gradeGroups, herr, List.mem_append] at ht
      rcases ht with ht | ht
      · have := gradePairs_trace_mem env sid k (pairsFor m k) [] db t ht
        exact ⟨by simp [this.1], this.2⟩
      · have := ih _ t ht
        exact ⟨by simp [this.1], this.2⟩

theorem grade_submission_trace_mem (env : Env) (sid : Int) (db : List GradingRow)
    (t : PairTrace) (ht : t ∈ (grade_submission env sid db).trace) :
    t.groupKey ∈ groupKeys (_match_pairs env.questions env.items).1 ∧
    isBlank t.item.answer_text = false := by
  cases hsub : env.submission with
  | none => simp [grade_submission, hsub] at ht
  | some s =>
    cases herr : (gradeGroups env sid
        (groupKeys (_match_pairs env.questions env.items).1)
        (_match_pairs env.questions env.items).1 db).err with
    | some e =>
      simp only [grade_submission, hsub, herr] at ht
      exact gradeGroups_trace_mem env sid _ _ db t ht
    | none =>
      simp only [grade_submission, hsub, herr] at ht
      exact gradeGroups_trace_mem env sid _ _ db t ht

/-! ## C4 — unanswered questions -/

/-- Claim C4: for a matched pair whose fragment text is blank, the
persisted no-credit grading copies the question's knowledge-topic tags
into the knowledge-gap field, has empty error tags, correctness false,
and the fixed "not attempted" judgement text; and the oracle is never
invoked for a blank fragment (every traced oracle call has a non-blank
fragment). -/
theorem c4_theorem (q : Question) (sid : Int) (db : List GradingRow) :
    getGrading (_create_missing_grading q sid db) sid q.id =
      some ⟨sid, q.id, _safe_json_loads q.knowledge_topics, [],
        missingFeedback (_safe_json_loads q.knowledge_topics), false, none⟩ ∧
    ∀ (env : Env) (sid2 : Int) (db2 : List GradingRow) (t : PairTrace),
      t ∈ (grade_submission env sid2 db2).trace →
      isBlank t.item.answer_text = false := by
  constructor
  · exact getGrading_save_self db sid q.id _ _ _ _
  · intro env sid2 db2 t ht
    exact (grade_submission_trace_mem env sid2 db2 t ht).2

/-- The first trace entry of `grade_submission envFix 1 []` (the pair
`(qF1, iF1)`, graded with an empty context). -/
def tFix1 : PairTrace :=
  ⟨qF1, iF1, 1, [], ⟨⟨1, "a", "Qa", "ans-a"⟩, []⟩, ⟨"sol", "fa", "ra", "ans-a"⟩⟩

/-- Witness for `c4_theorem` at the concrete fixture. -/
theorem c4_witness :
    getGrading (_create_missing_grading qF1 1 []) 1 1 =
      some ⟨1, 1, ["t1", "t2"], [],
        "Học sinh không làm câu này. Cần ôn tập: t1, t2", false, none⟩ ∧
    isBlank tFix1.item.answer_text = false := by
  exact ⟨(c4_theorem qF1 1 []).1, (c4_theorem qF1 1 []).2 envFix 1 [] tFix1 (by decide)⟩

/-! ## C1 — completion of the grading pass -/

/-- A returned `GradingResult` agrees with the (possibly fallback)
judgement of the oracle call recorded for it. -/
def resultMatchesTrace (env : Env) (r : GradingResult) (t : PairTrace) : Prop :=
  r.question_id = t.question.id ∧
  r.knowledge_gaps = (_call_grading_ai (env.oracle t.oracleInput)).knowledge_gaps ∧
  r.calculation_logic_errors =
    (_call_grading_ai (env.oracle t.oracleInput)).calculation_logic_errors ∧
  r.llm_feedback = (_call_grading_ai (env.oracle t.oracleInput)).llm_feedback ∧
  r.is_correct = (_call_grading_ai (env.oracle t.oracleInput)).is_correct

theorem gradePairs_ok (env : Env) (sid k : Int)
    (pairs : List (Question × SubmissionItem))
    (hsol : ∀ qid, (env.solutions qid).isSome = true) :
    ∀ (stack : List (Question × SubmissionItem)) (db : List GradingRow),
      (gradePairs env sid k pairs stack db).err = none ∧
      List.Forall₂ (resultMatchesTrace env)
        (gradePairs env sid k pairs stack db).results
        (gradePairs env sid k pairs stack db).trace := by
  induction pairs with
  | nil => intro stack db; exact ⟨rfl, List.Forall₂.nil⟩
  | cons p rest ih =>
    intro stack db
    obtain ⟨q, a⟩ := p
    cases hb : isBlank a.answer_text with
    | true =>
      rw [gradePairs_step_blank env sid k q a rest stack db hb]
      exact ih stack _
    | false =>
      cases hs : env.solutions q.id with
      | none =>
        have := hsol q.id
        rw [hs] at this
        exact absurd this (by simp)
      | some sol =>
        rw [gradePairs_step_sol env sid k q a sol rest stack db hb hs]
        refine ⟨(ih _ _).1, List.Forall₂.cons ⟨rfl, rfl, rfl, rfl, rfl⟩ (ih _ _).2⟩

theorem gradeGroups_ok (env : Env) (sid : Int) (keys : List Int)
    (m : List (Question × SubmissionItem))
    (hsol : ∀ qid, (env.solutions qid).isSome = true) :
    ∀ (db : List GradingRow),
      (gradeGroups env sid keys m db).err = none ∧
      List.Forall₂ (resultMatchesTrace env)
        (gradeGroups env sid keys m db).results
        (gradeGroups env sid keys m db).trace := by
  induction keys with
  | nil => intro db; exact ⟨rfl, List.Forall₂.nil⟩
  | cons k rest ih =>
    intro db
    have hstep := gradePairs_ok env sid k (pairsFor m k) hsol [] db
    cases herr : (gradePairs env sid k (pairsFor m k) [] db).err with
    | some e => rw [herr] at hstep; exact absurd hstep.1 (by simp)
    | none =>
      simp only [gradeGroups, herr]
      exact ⟨(ih _).1, List.rel_append hstep.2 (ih _).2⟩

/-- Claim C1 (amended): when every question that reaches the oracle
branch has a stored solution, the grading pass always completes: it
returns `.ok` and each returned result is exactly the — possibly
fallback — judgement of its oracle call, so an oracle exception for one
pair yields the explanatory fallback for that pair and grading of the
remaining pairs continues.  (Without a stored solution the pass aborts —
see the counterexample.) -/
theorem c1_theorem (env : Env) (sid : Int) (db : List GradingRow)
    (hsol : ∀ qid, (env.solutions qid).isSome = true) :
    ∃ results, (grade_submission env sid db).outcome = .ok results ∧
      List.Forall₂ (resultMatchesTrace env) results
        (grade_submission env sid db).trace := by
  cases hsub : env.submission with
  | none => exact ⟨[], by simp [grade_submission, hsub], by simp [grade_submission, hsub]⟩
  | some s =>
    have h := gradeGroups_ok env sid
      (groupKeys (_match_pairs env.questions env.items).1)
      (_match_pairs env.questions env.items).1 hsol db
    cases herr : (gradeGroups env sid
        (groupKeys (_match_pairs env.questions env.items).1)
        (_match_pairs env.questions env.items).1 db).err with
    | some e => rw [herr] at h; exact absurd h.1 (by simp)
    | none =>
      refine ⟨(gradeGroups env sid
        (groupKeys (_match_pairs env.questions env.items).1)
        (_match_pairs env.questions env.items).1 db).results,
        by simp [grade_submission, hsub, herr], ?_⟩
      simpa [grade_submission, hsub, herr] using h.2

/-- The fixture with the grading oracle down for every call. -/
def envW1 : Env := { envFix with oracle := fun _ => .error "service down" }

/-- Witness for `c1_theorem`: with all solutions stored and the oracle
failing on every call, the pass still returns `.ok` and every result is
the fallback judgement. -/
theorem c1_witness :
    ∃ results, (grade_submission envW1 1 []).outcome = .ok results ∧
      List.Forall₂ (resultMatchesTrace envW1) results
        (grade_submission envW1 1 []).trace :=
  c1_theorem envW1 1 [] (fun _ => rfl)

/-- The fixture with no stored solutions at all. -/
def envC1 : Env := { envFix with solutions := fun _ => none }

/-- Claim C1 (counterexample): with a non-blank matched pair whose
question has no stored solution, `grade_submission` aborts with the
uncaught `ValueError` of `grade_with_solution_comparison` — the pass
does not complete, no oracle call is made, and nothing is returned for
the remaining pairs (including the later blank pair of group 2, whose
no-credit row is never created). -/
theorem c1_counterexample :
    (grade_submission envC1 1 []).outcome =
      Except.error "Không tìm thấy lời giải chuẩn cho question_id 1" ∧
    (grade_submission envC1 1 []).trace = [] ∧
    (grade_submission envC1 1 []).db = [] := by
  exact ⟨rfl, rfl, rfl⟩

/-! ## C6 — causal context ordering -/

theorem build_context_all (k : Int) (stack : List (Question × SubmissionItem))
    (h : ∀ p ∈ stack, p.1.order_index = k) :
    _build_context k stack = stack.map ctxEntryOf := by
  unfold _build_context
  rw [List.filter_eq_self.mpr (fun p hp => by simp [h p hp])]

theorem pairsFor_mem (m : List (Question × SubmissionItem)) (k : Int)
    (p : Question × SubmissionItem) (hp : p ∈ pairsFor m k) :
    p.1.order_index = k := by
  simp only [pairsFor, List.mem_filter, beq_iff_eq] at hp
  exact hp.2

theorem gradePairs_trace_ctx (env : Env) (sid k : Int)
    (pairs : List (Question × SubmissionItem)) :
    ∀ (stack : List (Question × SubmissionItem)) (db : List GradingRow)
      (t₁ : List PairTrace) (t : PairTrace) (t₂ : List PairTrace),
      (∀ p ∈ stack, p.1.order_index = k) →
      (∀ p ∈ pairs, p.1.order_index = k) →
      (gradePairs env sid k pairs stack db).trace = t₁ ++ t :: t₂ →
      t.ctx = (stack ++ t₁.map pairOf).map ctxEntryOf := by
  induction pairs with
  | nil =>
    intro stack db t₁ t t₂ _ _ h
    simp [gradePairs] at h
  | cons p rest ih =>
    intro stack db t₁ t t₂ hstack hpairs h
    obtain ⟨q, a⟩ := p
    cases hb : isBlank a.answer_text with
    | true =>
      rw [gradePairs_step_blank env sid k q a rest stack db hb] at h
      exact ih stack _ t₁ t t₂ hstack (fun p hp => hpairs p (List.mem_cons_of_mem _ hp)) h
    | false =>
      cases hs : env.solutions q.id with
      | none =>
        rw [gradePairs_step_nosol env sid k q a rest stack db hb hs] at h
        simp at h
      | some sol =>
        rw [gradePairs_step_sol env sid k q a sol rest stack db hb hs] at h
        simp only at h
        cases t₁ with
        | nil =>
          simp only [List.nil_append, List.cons.injEq] at h
          rw [← h.1]
          show (traceEntryOf k stack sol q a).ctx = _
          unfold traceEntryOf
          simp only [List.map_nil, List.append_nil]
          exact build_context_all k stack hstack
        | cons u t₁x =>
          simp only [List.cons_append, List.cons.injEq] at h
          have hrec := ih (stack ++ [(q, a)]) _ t₁x t t₂
            (by
              intro p hp
              rcases List.mem_append.mp hp with hp | hp
              · exact hstack p hp
              · simp only [List.mem_singleton] at hp
                subst hp
                exact hpairs (q, a) (List.mem_cons_self _ _))
            (fun p hp => hpairs p (List.mem_cons_of_mem _ hp)) h.2
          rw [hrec, ← h.1]
          show _ = (stack ++ (pairOf (traceEntryOf k stack sol q a) :: t₁x.map pairOf)).map ctxEntryOf
          have hpq : pairOf (traceEntryOf k stack sol q a) = (q, a) := rfl
          rw [hpq, List.append_assoc]
          rfl

/-- The soundness property of a trace's context lists: each oracle call
saw exactly the earlier same-group calls, in processing order. -/
def CtxSound (trace : List PairTrace) : Prop :=
  ∀ (t₁ : List PairTrace) (t : PairTrace) (t₂ : List PairTrace),
    trace = t₁ ++ t :: t₂ →
    t.ctx = ((t₁.filter (fun s => s.groupKey == t.groupKey)).map pairOf).map ctxEntryOf

theorem ctxSound_append (A B : List PairTrace)
    (hA : CtxSound A) (hB : CtxSound B)
    (hdisj : ∀ a ∈ A, ∀ b ∈ B, a.groupKey ≠ b.groupKey) : CtxSound (A ++ B) := by
  intro t₁ t t₂ h
  rcases List.append_eq_append_iff.mp h with ⟨w, hw1, hw2⟩ | ⟨w, hw1, hw2⟩
  · have htB : t ∈ B := by
      rw [hw2]
      exact List.mem_append_right _ (List.mem_cons_self _ _)
    have hAnil : A.filter (fun s => s.groupKey == t.groupKey) = [] := by
      rw [List.filter_eq_nil_iff]
      intro a ha
      simp only [beq_iff_eq]
      exact hdisj a ha t htB
    rw [hw1, List.filter_append, hAnil, List.nil_append]
    exact hB w t t₂ hw2
  · cases w with
    | nil =>
      simp only [List.nil_append] at hw2
      have htB : t ∈ B := by rw [← hw2]; exact List.mem_cons_self _ _
      have hAnil : t₁.filter (fun s => s.groupKey == t.groupKey) = [] := by
        rw [List.filter_eq_nil_iff]
        intro a ha
        simp only [beq_iff_eq]
        refine hdisj a ?_ t htB
        rw [hw1, List.append_nil]
        exact ha
      rw [hAnil]
      simpa using hB [] t t₂ hw2.symm
    | cons u w2 =>
      simp only [List.cons_append, List.cons.injEq] at hw2
      obtain ⟨rfl, -⟩ := hw2
      exact hA t₁ t w2 hw1

theorem groupCtxSound (env : Env) (sid k : Int)
    (m : List (Question × SubmissionItem)) (db : List GradingRow) :
    CtxSound (gradePairs env sid k (pairsFor m k) [] db).trace := by
  intro t₁ t t₂ h
  have hall : ∀ s ∈ t₁, s.groupKey = k := by
    intro s hs
    refine (gradePairs_trace_mem env sid k (pairsFor m k) [] db s ?_).1
    rw [h]
    exact List.mem_append_left _ hs
  have ht : t.groupKey = k := by
    refine (gradePairs_trace_mem env sid k (pairsFor m k) [] db t ?_).1
    rw [h]
    exact List.mem_append_right _ (List.mem_cons_self _ _)
  have hctx := gradePairs_trace_ctx env sid k (pairsFor m k) [] db t₁ t t₂
    (by simp) (pairsFor_mem m k) h
  rw [List.filter_eq_self.mpr (fun s hs => by simp [hall s hs, ht])]
  simpa using hctx

theorem sorted_map_const_key (l : List PairTrace) (k : Int)
    (h : ∀ t ∈ l, t.groupKey = k) :
    List.Sorted (· ≤ ·) (l.map (fun t => t.groupKey)) := by
  induction l with
  | nil => exact List.sorted_nil
  | cons u rest ih =>
    rw [List.map_cons, List.sorted_cons]
    refine ⟨?_, ih (fun t ht => h t (List.mem_cons_of_mem _ ht))⟩
    intro b hb
    rcases List.mem_map.mp hb with ⟨s, hs, rfl⟩
    rw [h u (List.mem_cons_self _ _), h s (List.mem_cons_of_mem _ hs)]

theorem gradeGroups_ctxSound (env : Env) (sid : Int) (keys : List Int)
    (m : List (Question × SubmissionItem)) (hnodup : keys.Nodup)
    (hsorted : List.Sorted (· ≤ ·) keys) :
    ∀ (db : List GradingRow),
      CtxSound (gradeGroups env sid keys m db).trace ∧
      List.Sorted (· ≤ ·)
        ((gradeGroups env sid keys m db).trace.map (fun t => t.groupKey)) := by
  induction keys with
  | nil =>
    intro db
    constructor
    · intro t₁ t t₂ h
      simp [gradeGroups] at h
    · simp [gradeGroups]
  | cons k rest ih =>
    intro db
    rw [List.nodup_cons] at hnodup
    rw [List.sorted_cons] at hsorted
    have hstepA : ∀ t ∈ (gradePairs env sid k (pairsFor m k) [] db).trace,
        t.groupKey = k :=
      fun t ht => (gradePairs_trace_mem env sid k (pairsFor m k) [] db t ht).1
    cases herr : (gradePairs env sid k (pairsFor m k) [] db).err with
    | some e =>
      constructor
      · intro t₁ t t₂ h
        simp only [gradeGroups, herr] at h
        exact groupCtxSound env sid k m db t₁ t t₂ h
      · simp only [gradeGroups, herr]
        exact sorted_map_const_key _ k hstepA
    | none =>
      have hB := ih hnodup.2 hsorted.2 (gradePairs env sid k (pairsFor m k) [] db).db
      have hBmem : ∀ t ∈ (gradeGroups env sid rest m
          (gradePairs env sid k (pairsFor m k) [] db).db).trace, t.groupKey ∈ rest :=
        fun t ht => (gradeGroups_trace_mem env sid rest m _ t ht).1
      constructor
      · intro t₁ t t₂ h
        simp only [gradeGroups, herr] at h
        refine ctxSound_append _ _ (groupCtxSound env sid k m db) hB.1 ?_ t₁ t t₂ h
        intro a ha b hb
        rw [hstepA a ha]
        intro hc
        exact hnodup.1 (hc ▸ hBmem b hb)
      · simp only [gradeGroups, herr, List.map_append]
        refine List.pairwise_append.mpr ⟨sorted_map_const_key _ k hstepA, hB.2, ?_⟩
        intro x hx y hy
        rcases List.mem_map.mp hx with ⟨s, hs, rfl⟩
        rcases List.mem_map.mp hy with ⟨u, hu, rfl⟩
        rw [hstepA s hs]
        exact hsorted.1 u.groupKey (hBmem u hu)

theorem groupKeys_nodup (m : List (Question × SubmissionItem)) :
    (groupKeys m).Nodup :=
  (List.perm_insertionSort _ _).nodup_iff.mpr (List.nodup_dedup _)

theorem groupKeys_sorted (m : List (Question × SubmissionItem)) :
    List.Sorted (· ≤ ·) (groupKeys m) :=
  List.sorted_insertionSort _ _

theorem grade_submission_ctxSound (env : Env) (sid : Int) (db : List GradingRow) :
    CtxSound (grade_submission env sid db).trace ∧
    List.Sorted (· ≤ ·)
      ((grade_submission env sid db).trace.map (fun s => s.groupKey)) := by
  cases hsub : env.submission with
  | none =>
    constructor
    · intro t₁ t t₂ h
      simp [grade_submission, hsub] at h
    · simp [grade_submission, hsub]
  | some s =>
    have hg := gradeGroups_ctxSound env sid
      (groupKeys (_match_pairs env.questions env.items).1)
      (_match_pairs env.questions env.items).1
      (groupKeys_nodup _) (groupKeys_sorted _) db
    cases herr : (gradeGroups env sid
        (groupKeys (_match_pairs env.questions env.items).1)
        (_match_pairs env.questions env.items).1 db).err with
    | some e =>
      constructor
      · intro t₁ t t₂ h
        simp only [grade_submission, hsub, herr] at h
        exact hg.1 t₁ t t₂ h
      · simp only [grade_submission, hsub, herr]
        exact hg.2
    | none =>
      constructor
      · intro t₁ t t₂ h
        simp only [grade_submission, hsub, herr] at h
        exact hg.1 t₁ t t₂ h
      · simp only [grade_submission, hsub, herr]
        exact hg.2

/-- Claim C6: for any graded pair, the context list computed for it (and
carried in its oracle-call record) is exactly the image of the pairs of
the *same group* processed *strictly before it*, in processing order —
never a pair of another group, never a later pair — and the group
indices are processed in ascending numeric order. -/
theorem c6_theorem (env : Env) (sid : Int) (db : List GradingRow)
    (t₁ : List PairTrace) (t : PairTrace) (t₂ : List PairTrace)
    (h : (grade_submission env sid db).trace = t₁ ++ t :: t₂) :
    t.ctx = ((t₁.filter (fun s => s.groupKey == t.groupKey)).map pairOf).map ctxEntryOf ∧
    List.Sorted (· ≤ ·)
      ((grade_submission env sid db).trace.map (fun s => s.groupKey)) :=
  ⟨(grade_submission_ctxSound env sid db).1 t₁ t t₂ h,
    (grade_submission_ctxSound env sid db).2⟩

/-- The second trace entry of `grade_submission envFix 1 []` (the pair
`(qF2, iF2)`, graded with part "a" in context). -/
def tFix2 : PairTrace :=
  ⟨qF2, iF2, 1, [⟨"a", "Qa", "ans-a"⟩],
    ⟨⟨1, "b", "Qb", "ans-b"⟩, [⟨"a", "Qa", "ans-a"⟩]⟩,
    ⟨"sol", "fa", "ra", "ans-b"⟩⟩

/-- Witness for `c6_theorem` at the concrete fixture: the second pair of
group 1 sees exactly the first pair in its context, and the processed
group keys are ascending. -/
theorem c6_witness :
    tFix2.ctx = (([tFix1].filter
      (fun s => s.groupKey == tFix2.groupKey)).map pairOf).map ctxEntryOf ∧
    List.Sorted (· ≤ ·)
      ((grade_submission envFix 1 []).trace.map (fun s => s.groupKey)) :=
  c6_theorem envFix 1 [] [tFix1] tFix2 [] (by decide)

/-! ## C10 — frame effects of blank fragments -/

theorem gradePairs_len (env : Env) (sid k : Int)
    (pairs : List (Question × SubmissionItem)) :
    ∀ (stack : List (Question × SubmissionItem)) (db : List GradingRow),
      (gradePairs env sid k pairs stack db).results.length =
        (gradePairs env sid k pairs stack db).trace.length := by
  induction pairs with
  | nil => intro stack db; rfl
  | cons p rest ih =>
    intro stack db
    obtain ⟨q, a⟩ := p
    cases hb : isBlank a.answer_text with
    | true =>
      rw [gradePairs_step_blank env sid k q a rest stack db hb]
      exact ih stack _
    | false =>
      cases hs : env.solutions q.id with
      | none =>
        rw [gradePairs_step_nosol env sid k q a rest stack db hb hs]
        rfl
      | some sol =>
        rw [gradePairs_step_sol env sid k q a sol rest stack db hb hs]
        simp only [List.length_cons]
        rw [ih _ _]


theorem gradeGroups_len (env : Env) (sid : Int) (keys : List Int)
    (m : List (Question × SubmissionItem)) :
    ∀ (db : List GradingRow),
      (gradeGroups env sid keys m db).results.length =
        (gradeGroups env sid keys m db).trace.length := by
  induction keys with
  | nil => intro db; rfl
  | cons k rest ih =>
    intro db
    cases herr : (gradePairs env sid k (pairsFor m k) [] db).err with
    | some e =>
      simp only [gradeGroups, herr]
      exact gradePairs_len env sid k (pairsFor m k) [] db
    | none =>
      simp only [gradeGroups, herr, List.length_append]
      rw [gradePairs_len env sid k (pairsFor m k) [] db, ih _]

theorem gradePairs_pres_isSome (env : Env) (sid k : Int)
    (pairs : List (Question × SubmissionItem)) :
    ∀ (stack : List (Question × SubmissionItem)) (db : List GradingRow)
      (s2 q2 : Int), (getGrading db s2 q2).isSome = true →
      (getGrading (gradePairs env sid k pairs stack db).db s2 q2).isSome = true := by
  induction pairs with
  | nil => intro stack db s2 q2 h; exact h
  | cons p rest ih =>
    intro stack db s2 q2 h
    obtain ⟨q, a⟩ := p
    cases hb : isBlank a.answer_text with
    | true =>
      rw [gradePairs_step_blank env sid k q a rest stack db hb]
      exact ih stack _ s2 q2 (getGrading_save_isSome db sid q.id s2 q2 _ _ _ _ h)
    | false =>
      cases hs : env.solutions q.id with
      | none =>
        rw [gradePairs_step_nosol env sid k q a rest stack db hb hs]
        exact h
      | some sol =>
        rw [gradePairs_step_sol env sid k q a sol rest stack db hb hs]
        exact ih _ _ s2 q2 (getGrading_save_isSome db sid q.id s2 q2 _ _ _ _ h)

theorem gradeGroups_pres_isSome (env : Env) (sid : Int) (keys : List Int)
    (m : List (Question × SubmissionItem)) :
    ∀ (db : List GradingRow) (s2 q2 : Int),
      (getGrading db s2 q2).isSome = true →
      (getGrading (gradeGroups env sid keys m db).db s2 q2).isSome = true := by
  induction keys with
  | nil => intro db s2 q2 h; exact h
  | cons k rest ih =>
    intro db s2 q2 h
    have hstep := gradePairs_pres_isSome env sid k (pairsFor m k) [] db s2 q2 h
    cases herr : (gradePairs env sid k (pairsFor m k) [] db).err with
    | some e => simpa [gradeGroups, herr] using hstep
    | none => simpa [gradeGroups, herr] using ih _ s2 q2 hstep

theorem gradePairs_blank_saved (env : Env) (sid k : Int)
    (pairs : List (Question × SubmissionItem)) :
    ∀ (stack : List (Question × SubmissionItem)) (db : List GradingRow)
      (q : Question) (a : SubmissionItem), (q, a) ∈ pairs →
      isBlank a.answer_text = true →
      (gradePairs env sid k pairs stack db).err = none →
      (getGrading (gradePairs env sid k pairs stack db).db sid q.id).isSome = true := by
  induction pairs with
  | nil => intro stack db q a hmem; simp at hmem
  | cons p rest ih =>
    intro stack db q a hmem hblank herr
    obtain ⟨q0, a0⟩ := p
    rcases List.mem_cons.mp hmem with heq | hmem2
    · have h1 : q = q0 := congrArg Prod.fst heq
      have h2 : a = a0 := congrArg Prod.snd heq
      subst h1
      subst h2
      rw [gradePairs_step_blank env sid k q a rest stack db hblank]
      refine gradePairs_pres_isSome env sid k rest stack _ sid q.id ?_
      have := getGrading_save_self db sid q.id
        (_safe_json_loads q.knowledge_topics) []
        (missingFeedback (_safe_json_loads q.knowledge_topics)) false
      unfold _create_missing_grading
      rw [this]
      rfl
    · cases hb : isBlank a0.answer_text with
      | true =>
        rw [gradePairs_step_blank env sid k q0 a0 rest stack db hb] at herr ⊢
        exact ih stack _ q a hmem2 hblank herr
      | false =>
        cases hs : env.solutions q0.id with
        | none =>
          rw [gradePairs_step_nosol env sid k q0 a0 rest stack db hb hs] at herr
          simp at herr
        | some sol =>
          rw [gradePairs_step_sol env sid k q0 a0 sol rest stack db hb hs] at herr ⊢
          exact ih _ _ q a hmem2 hblank herr

theorem gradeGroups_blank_saved (env : Env) (sid : Int) (keys : List Int)
    (m : List (Question × SubmissionItem)) :
    ∀ (db : List GradingRow) (q : Question) (a : SubmissionItem),
      (q, a) ∈ m → q.order_index ∈ keys → isBlank a.answer_text = true →
      (gradeGroups env sid keys m db).err = none →
      (getGrading (gradeGroups env sid keys m db).db sid q.id).isSome = true := by
  induction keys with
  | nil => intro db q a _ hk; simp at hk
  | cons k rest ih =>
    intro db q a hmem hk hblank herr
    cases herr2 : (gradePairs env sid k (pairsFor m k) [] db).err with
    | some e => simp [gradeGroups, herr2] at herr
    | none =>
      simp only [gradeGroups, herr2] at herr ⊢
      rcases List.mem_cons.mp hk with heq | hk2
      · have hpair : (q, a) ∈ pairsFor m k := by
          simp only [pairsFor, List.mem_filter]
          exact ⟨hmem, by simp [heq]⟩
        refine gradeGroups_pres_isSome env sid rest m _ sid q.id ?_
        exact gradePairs_blank_saved env sid k (pairsFor m k) [] db q a hpair hblank herr2
      · exact ih _ q a hmem hk2 hblank herr

theorem mem_groupKeys (m : List (Question × SubmissionItem))
    (q : Question) (a : SubmissionItem) (h : (q, a) ∈ m) :
    q.order_index ∈ groupKeys m := by
  unfold groupKeys
  rw [List.mem_insertionSort, List.mem_dedup]
  exact List.mem_map.mpr ⟨(q, a), h, rfl⟩

/-- Claim C10: a blank matched pair is persisted but invisible to the
rest of the pass: the returned results correspond one-to-one with the
oracle calls (one per non-blank graded pair, so blank pairs are never
returned), no traced oracle call has a blank fragment, every context
entry of a traced call comes from an *earlier non-blank* traced call
(the context stack is extended only for pairs actually sent to the
oracle), and when the pass completes every blank matched pair has a
grading row persisted for it. -/
theorem c10_theorem (env : Env) (sid : Int) (db : List GradingRow) :
    (∀ results, (grade_submission env sid db).outcome = .ok results →
      results.length = (grade_submission env sid db).trace.length) ∧
    (∀ t ∈ (grade_submission env sid db).trace, isBlank t.item.answer_text = false) ∧
    (∀ (t₁ : List PairTrace) (t : PairTrace) (t₂ : List PairTrace),
      (grade_submission env sid db).trace = t₁ ++ t :: t₂ →
      ∀ e ∈ t.ctx, ∃ s, s ∈ t₁ ∧ isBlank s.item.answer_text = false ∧
        e = ctxEntryOf (pairOf s)) ∧
    (∀ (sub : Submission) (results : List GradingResult)
      (q : Question) (a : SubmissionItem),
      env.submission = some sub →
      (grade_submission env sid db).outcome = .ok results →
      (q, a) ∈ (_match_pairs env.questions env.items).1 →
      isBlank a.answer_text = true →
      (getGrading (grade_submission env sid db).db sid q.id).isSome = true) := by
  refine ⟨?_, ?_, ?_, ?_⟩
  · intro results hres
    cases hsub : env.submission with
    | none =>
      simp only [grade_submission, hsub] at hres ⊢
      obtain ⟨rfl⟩ : results = [] := by
        cases hres
        rfl
      rfl
    | some s =>
      cases herr : (gradeGroups env sid
          (groupKeys (_match_pairs env.questions env.items).1)
          (_match_pairs env.questions env.items).1 db).err with
      | some e => simp [grade_submission, hsub, herr] at hres
      | none =>
        simp only [grade_submission, hsub, herr, Except.ok.injEq] at hres ⊢
        rw [← hres]
        exact gradeGroups_len env sid _ _ db
  · intro t ht
    exact (grade_submission_trace_mem env sid db t ht).2
  · intro t₁ t t₂ h e he
    rw [(grade_submission_ctxSound env sid db).1 t₁ t t₂ h] at he
    simp only [List.mem_map, List.mem_filter] at he
    obtain ⟨p, ⟨s, ⟨hs, -⟩, rfl⟩, rfl⟩ := he
    refine ⟨s, hs, ?_, rfl⟩
    refine (grade_submission_trace_mem env sid db s ?_).2
    rw [h]
    exact List.mem_append_left _ hs
  · intro sub results q a hsub hres hmem hblank
    cases herr : (gradeGroups env sid
        (groupKeys (_match_pairs env.questions env.items).1)
        (_match_pairs env.questions env.items).1 db).err with
    | some e => simp [grade_submission, hsub, herr] at hres
    | none =>
      simp only [grade_submission, hsub, herr]
      exact gradeGroups_blank_saved env sid _ _ db q a hmem
        (mem_groupKeys _ q a hmem) hblank herr

/-- The first result of `grade_submission envFix 1 []`. -/
def rFix1 : GradingResult := ⟨1, 1, 1, "a", ["g-ans-a"], [], "fb", true⟩

/-- The second result of `grade_submission envFix 1 []`. -/
def rFix2 : GradingResult := ⟨1, 2, 1, "b", ["g-ans-b"], [], "fb", true⟩

/-- Witness for `c10_theorem` at the concrete fixture: the blank
group-2 fragment got its no-credit row persisted even though only the
two non-blank pairs were returned. -/
theorem c10_witness :
    (getGrading (grade_submission envFix 1 []).db 1 qF3.id).isSome = true :=
  (c10_theorem envFix 1 []).2.2.2 ⟨1, 1⟩ [rFix1, rFix2] qF3 iF3 rfl (by rfl)
    (by decide) (by decide)

/-! ## C8 — report caching -/

/-- The fold step of `get_latest_report` (keep the row with the greater
creation time). -/
def latestStep (acc : Option ReportRow) (r : ReportRow) : Option ReportRow :=
  match acc with
  | none => some r
  | some b => if b.created_at < r.created_at then some r else some b

theorem get_latest_report_eq_fold (st : ReportState) (sid : Int) :
    get_latest_report st sid =
      (st.reports.filter (fun r => r.submission_id == sid)).foldl latestStep none := by
  rfl

theorem foldl_latestStep_isSome (l : List ReportRow) :
    ∀ (b : ReportRow), (l.foldl latestStep (some b)).isSome = true := by
  induction l with
  | nil => intro b; rfl
  | cons r rest ih =>
    intro b
    rw [List.foldl_cons]
    show (rest.foldl latestStep
      (if b.created_at < r.created_at then some r else some b)).isSome = true
    by_cases hlt : b.created_at < r.created_at
    · rw [if_pos hlt]; exact ih r
    · rw [if_neg hlt]; exact ih b

theorem get_latest_none_filter_nil (st : ReportState) (sid : Int)
    (h : get_latest_report st sid = none) :
    st.reports.filter (fun r => r.submission_id == sid) = [] := by
  rw [get_latest_report_eq_fold] at h
  cases hf : st.reports.filter (fun r => r.submission_id == sid) with
  | nil => rfl
  | cons r rest =>
    rw [hf, List.foldl_cons] at h
    have hs := foldl_latestStep_isSome rest r
    rw [show latestStep none r = some r from rfl] at h
    rw [h] at hs
    simp at hs

/-- Claim C8: `get_or_generate_report` returns the stored latest report
without invoking the report oracle when one exists, invokes the oracle
only when none exists, and two consecutive calls (with the gradings
unchanged in between) return identical text. -/
theorem c8_theorem (env : Env) (sid : Int) (st : ReportState) :
    (∀ r, get_latest_report st sid = some r →
      get_or_generate_report env sid st = (r.report_content, st, false)) ∧
    (get_latest_report st sid = none →
      (get_or_generate_report env sid st).2.2 = true) ∧
    ((get_or_generate_report env sid
        ((get_or_generate_report env sid st).2.1)).1 =
      (get_or_generate_report env sid st).1) := by
  refine ⟨?_, ?_, ?_⟩
  · intro r hr
    simp [get_or_generate_report, hr]
  · intro h
    simp [get_or_generate_report, h, build_final_report]
  · cases hl : get_latest_report st sid with
    | some r => simp [get_or_generate_report, hl]
    | none =>
      have hnil := get_latest_none_filter_nil st sid hl
      cases horacle : env.reportOracle
          ((reportJoin env.questions st.gradings sid).map compactOf) with
      | ok c =>
        have hfirst : get_or_generate_report env sid st =
            (c, { st with
              reports := st.reports ++
                [{ submission_id := sid, report_content := c, created_at := st.clock }]
              clock := st.clock + 1 }, true) := by
          simp [get_or_generate_report, hl, build_final_report, horacle]
        rw [hfirst]
        have hlatest2 : get_latest_report
            { st with
              reports := st.reports ++
                [{ submission_id := sid, report_content := c, created_at := st.clock }]
              clock := st.clock + 1 } sid =
            some { submission_id := sid, report_content := c, created_at := st.clock } := by
          rw [get_latest_report_eq_fold]
          simp only [List.filter_append, hnil, List.nil_append]
          simp [List.filter, latestStep]
        simp [get_or_generate_report, hlatest2]
      | error e =>
        have hfirst : get_or_generate_report env sid st =
            ("Không thể tạo báo cáo do lỗi hệ thống.", st, true) := by
          simp [get_or_generate_report, hl, build_final_report, horacle]
        rw [hfirst]
        simp only
        rw [hfirst]

/-- A report state holding one stored report for submission 1. -/
def stC8 : ReportState :=
  ⟨[], [⟨1, "stored report", 0⟩], 1⟩

/-- Witness for `c8_theorem`: with a stored report present, the call
returns it unchanged without touching the oracle. -/
theorem c8_witness :
    get_or_generate_report envFix 1 stC8 = ("stored report", stC8, false) :=
  (c8_theorem envFix 1 stC8).1 ⟨1, "stored report", 0⟩ rfl

end TeacherAssistant

